import Mathlib

/-!
Shallow embedding of the unsafe-trading matching engine
(src/unsafe-trading/src/order/internals.rs, order/mod.rs, core.rs).

Modelling conventions:
- u64 scalars (OrderId, LimitPrice, Amount) are Nat; the only u64
  arithmetic that could wrap are the aggregate length counters of the
  orderbook, modelled with explicit wrapping mod 2 ^ 64 (addW, subW).
  The subtractions on Order.remaining inside Order.trade are guarded by
  taking the minimum first, so Nat subtraction agrees with u64 there.
- BTreeMap is modelled as an association list kept sorted by key
  (alInsert keeps sortedness, alGet and alRemoveGet act on the first
  match); iteration order of a BTreeMap is ascending key order, so
  head is the minimum key and last is the maximum key.
- IndexMap (the order index of the engine) is an association list where
  idxInsert replaces in place or appends; the engine never observes the
  iteration order of the index, so removal is modelled as removing the
  matching entry.
- The NonNull pointers stored in the orderbook are modelled by the
  pointed-to Order value: engine operations never mutate an order while
  it rests in the book, so the stored value coincides with the pointer
  target whenever the target is alive.
- The while-let matching loop of try_insert is modelled by matchLoop
  with fuel (orders index length + 1); each iteration that continues
  removes one index entry, so this fuel is never exhausted (proved in
  the termination theorem).
- The unreachable! arm of the status match is modelled by the value
  none of matchLoop, surfaced as TryInsertOutcome.panicked.
-/

namespace UnsafeTrading

/-- OrderSide from order/internals.rs. -/
inductive OrderSide
  | Ask
  | Bid
deriving DecidableEq, Repr

/-- OrderSide.opposite from order/internals.rs. -/
def OrderSide.opposite : OrderSide → OrderSide
  | .Ask => .Bid
  | .Bid => .Ask

/-- OrderKind from order/internals.rs. -/
inductive OrderKind
  | Limit
  | Market
  | Stop
  | Trailing
deriving DecidableEq, Repr

/-- OrderStatus from order/internals.rs. -/
inductive OrderStatus
  | Open
  | Partial
  | Completed
  | Closed
  | Cancelled
deriving DecidableEq, Repr

/-- Order from order/mod.rs. -/
structure Order where
  id : Nat
  initial_kind : OrderKind
  current_kind : OrderKind
  side : OrderSide
  amount : Nat
  remaining : Nat
  limit_price : Nat
  status : OrderStatus
  created_at : Nat
deriving DecidableEq, Repr

/-- Trade from order/mod.rs. -/
structure Trade where
  maker_id : Nat
  taker_id : Nat
  price : Nat
  amount : Nat
  created_at : Nat
deriving DecidableEq, Repr

/-- Order.matches_with from the Exchangeable impl in order/mod.rs. -/
def Order.matches_with (self other : Order) : Bool :=
  if self.side = OrderSide.Ask ∧ other.side = OrderSide.Bid then
    decide (self.limit_price ≤ other.limit_price)
  else if self.side = OrderSide.Bid ∧ other.side = OrderSide.Ask then
    decide (other.limit_price ≤ self.limit_price)
  else
    false

/-- The update closure used twice inside Order.trade: subtract the traded
amount from remaining and recompute the status from the new remaining. -/
def Order.fill (o : Order) (amt : Nat) : Order :=
  { o with
    remaining := o.remaining - amt
    status := if o.remaining - amt = 0 then OrderStatus.Completed else OrderStatus.Partial }

/-- Order.trade from the Exchangeable impl in order/mod.rs; self and other
are taken and returned by value (they are mutated in place in the source). -/
def Order.trade (self other : Order) : Order × Order × Option Trade :=
  if Order.matches_with self other then
    let amount := min self.remaining other.remaining
    let price := match self.side with
      | OrderSide.Ask => max self.limit_price other.limit_price
      | OrderSide.Bid => min self.limit_price other.limit_price
    (self.fill amount, other.fill amount,
      some { maker_id := self.id, taker_id := other.id, amount := amount,
             price := price, created_at := 0 })
  else
    (self, other, none)

/-! ### Map models -/

/-- Lookup of the first entry with the given key (BTreeMap get and
IndexMap get agree with this on well-formed maps). -/
def alGet {α : Type} (k : Nat) : List (Nat × α) → Option α
  | [] => none
  | (k1, v) :: rest => if k = k1 then some v else alGet k rest

/-- BTreeMap insert: keep entries sorted by key, replacing the entry when
the key is already present. -/
def alInsert {α : Type} (k : Nat) (v : α) : List (Nat × α) → List (Nat × α)
  | [] => [(k, v)]
  | (k1, v1) :: rest =>
    if k < k1 then (k, v) :: (k1, v1) :: rest
    else if k = k1 then (k, v) :: rest
    else (k1, v1) :: alInsert k v rest

/-- Removal of the first entry with the given key, returning the remaining
list together with the removed value (BTreeMap remove and IndexMap
swap_remove both have this observable behaviour for the engine, which
never reads the iteration order of the index). -/
def alRemoveGet {α : Type} (k : Nat) : List (Nat × α) → List (Nat × α) × Option α
  | [] => ([], none)
  | (k1, v) :: rest =>
    if k = k1 then (rest, some v)
    else
      let r := alRemoveGet k rest
      ((k1, v) :: r.1, r.2)

/-- IndexMap insert: replace in place when present, append otherwise. -/
def idxInsert {α : Type} (k : Nat) (v : α) : List (Nat × α) → List (Nat × α)
  | [] => [(k, v)]
  | (k1, v1) :: rest =>
    if k = k1 then (k, v) :: rest else (k1, v1) :: idxInsert k v rest

/-! ### Orderbook -/

/-- One price level: BTreeMap from OrderId to the resting order
(the source stores NonNull pointers; see the module comment). -/
abbrev Level := List (Nat × Order)

/-- One side of the book: BTreeMap from LimitPrice to a price level. -/
abbrev Levels := List (Nat × Level)

/-- Modulus of the u64 counters. -/
def U64 : Nat := 2 ^ 64

/-- Wrapping u64 addition (release-mode Rust semantics of the saturating
counters ask_length and bid_length). -/
def addW (a b : Nat) : Nat := (a + b) % U64

/-- Wrapping u64 subtraction. -/
def subW (a b : Nat) : Nat := (a + (U64 - b % U64)) % U64

/-- Orderbook from core.rs; the sides IndexMap always holds exactly the
two sides, modelled as two fields. -/
structure Orderbook where
  ask_levels : Levels
  bid_levels : Levels
  ask_length : Nat
  bid_length : Nat
deriving DecidableEq, Repr

/-- Orderbook::default from core.rs. -/
def emptyBook : Orderbook := { ask_levels := [], bid_levels := [], ask_length := 0, bid_length := 0 }

/-- The tree part of Orderbook::insert: entry(side).or_default()
.entry(limit_price).or_default().insert(id, ptr). -/
def levelsInsert (o : Order) (levels : Levels) : Levels :=
  alInsert o.limit_price (alInsert o.id o ((alGet o.limit_price levels).getD [])) levels

/-- Orderbook::insert from core.rs. -/
def Orderbook.insert (b : Orderbook) (o : Order) : Orderbook :=
  match o.side with
  | OrderSide.Ask =>
    { b with ask_length := addW b.ask_length o.remaining, ask_levels := levelsInsert o b.ask_levels }
  | OrderSide.Bid =>
    { b with bid_length := addW b.bid_length o.remaining, bid_levels := levelsInsert o b.bid_levels }

/-- The tree part of Orderbook::remove: find the level of the limit price
of the removed order (an early return of None leaves the already
performed length decrement in place, as in the source), remove the id
from the level, and drop the level when it became empty. -/
def levelsRemove (o : Order) (levels : Levels) : Levels × Option Order :=
  match alGet o.limit_price levels with
  | none => (levels, none)
  | some lvl =>
    let r := alRemoveGet o.id lvl
    (if r.1.isEmpty then (alRemoveGet o.limit_price levels).1
     else alInsert o.limit_price r.1 levels, r.2)

/-- Orderbook::remove from core.rs: the length counter of the side of the
removed order is decremented first, unconditionally. -/
def Orderbook.remove (b : Orderbook) (o : Order) : Orderbook × Option Order :=
  match o.side with
  | OrderSide.Ask =>
    let r := levelsRemove o b.ask_levels
    ({ b with ask_length := subW b.ask_length o.remaining, ask_levels := r.1 }, r.2)
  | OrderSide.Bid =>
    let r := levelsRemove o b.bid_levels
    ({ b with bid_length := subW b.bid_length o.remaining, bid_levels := r.1 }, r.2)

/-- Orderbook::pop from core.rs: pick the best opposing level (last bid
level for an incoming Ask, first ask level for an incoming Bid), take the
first entry of that level (minimum OrderId), and remove it. -/
def Orderbook.pop (b : Orderbook) (incoming_order : Order) : Orderbook × Option Order :=
  let lvl? := match incoming_order.side with
    | OrderSide.Ask => b.bid_levels.getLast?
    | OrderSide.Bid => b.ask_levels.head?
  match lvl? with
  | none => (b, none)
  | some (_price, lvl) =>
    match lvl.head? with
    | none => (b, none)
    | some (_id, o) => b.remove o

/-! ### Engine -/

/-- TradingEngineResponse from core.rs. -/
inductive TradingEngineResponse
  | OrderReceived (id : Nat)
  | OrderAddedToOrderbook (id : Nat)
  | OrderPartiallyFilled (id : Nat) (previous_remaining current_remaining : Nat)
  | OrderCompleted (id : Nat)
  | OrderReceivedCompletedBeforeEnterInOrderbook (id : Nat)
  | OrderRemovedFromOrderbook (id : Nat)
deriving DecidableEq, Repr

/-- TradingEngine from core.rs. -/
structure TradingEngine where
  orders : List (Nat × Order)
  orderbook : Orderbook
  events : List TradingEngineResponse
deriving DecidableEq, Repr

/-- TradingEngine::default from core.rs. -/
def emptyEngine : TradingEngine := { orders := [], orderbook := emptyBook, events := [] }

/-- events.push. -/
def TradingEngine.pushEvent (e : TradingEngine) (ev : TradingEngineResponse) : TradingEngine :=
  { e with events := e.events ++ [ev] }

/-- TradingEngine::get from core.rs. -/
def TradingEngine.get (e : TradingEngine) (order_id : Nat) : Option Order :=
  alGet order_id e.orders

/-- The private TradingEngine::insert from core.rs: index the order and
insert its handle into the orderbook. -/
def TradingEngine.insert (e : TradingEngine) (order : Order) : TradingEngine :=
  { e with
    orders := idxInsert order.id order e.orders
    orderbook := e.orderbook.insert order }

/-- TradingEngine::remove from core.rs: remove from the index only. -/
def TradingEngine.remove (e : TradingEngine) (order_id : Nat) : TradingEngine × Option Order :=
  let r := alRemoveGet order_id e.orders
  ({ e with orders := r.1 }, r.2)

/-- TradingEngine::pop_from_orderbook from core.rs: pop the best opposing
handle from the book (possibly mutating it even when the result is
discarded), then remove that order from the index and return it. -/
def TradingEngine.pop_from_orderbook (e : TradingEngine) (opposite_order : Order) :
    TradingEngine × Option Order :=
  match e.orderbook.pop opposite_order with
  | (bk, none) => ({ e with orderbook := bk }, none)
  | (bk, some o) => TradingEngine.remove { e with orderbook := bk } o.id

/-- Result of try_insert: Ok, Err (duplicate id), or the unreachable! arm. -/
inductive TryInsertOutcome
  | ok (e : TradingEngine)
  | err (e : TradingEngine)
  | panicked
deriving DecidableEq, Repr

/-- Boolean test for the Err outcome. -/
def TryInsertOutcome.isErr : TryInsertOutcome → Bool
  | .err _ => true
  | _ => false

/-- The while-let matching loop of TradingEngine::try_insert, with fuel.
Each continuing iteration removes one entry from the index, so
fuel = index length + 1 computes the exact loop (see the termination
theorem). Note that when trade returns None the loop body does nothing
and the loop continues: the popped order has already been removed from
the book and the index and is dropped. -/
def matchLoop : Nat → TradingEngine → Order → Option (TradingEngine × Order)
  | 0, e, order => some (e, order)
  | fuel + 1, e, order =>
    match e.pop_from_orderbook order with
    | (e1, none) => some (e1, order)
    | (e1, some top_order) =>
      match Order.trade order top_order with
      | (_, _, none) => matchLoop fuel e1 order
      | (order1, top1, some t) =>
        match order1.status, top1.status with
        | OrderStatus.Partial, OrderStatus.Completed =>
          matchLoop fuel
            (((e1.pushEvent
                (.OrderPartiallyFilled order.id (order1.remaining + t.amount) order1.remaining)).pushEvent
              (.OrderCompleted top1.id)).pushEvent
              (.OrderRemovedFromOrderbook top1.id))
            order1
        | OrderStatus.Open, OrderStatus.Open
        | OrderStatus.Open, OrderStatus.Partial
        | OrderStatus.Partial, OrderStatus.Partial
        | OrderStatus.Completed, OrderStatus.Partial =>
          some
            (((e1.pushEvent
                (.OrderPartiallyFilled top1.id (top1.remaining + t.amount) top1.remaining)).insert
                top1).pushEvent
              (.OrderCompleted order.id),
             order1)
        | OrderStatus.Completed, OrderStatus.Completed =>
          some
            (((e1.pushEvent (.OrderCompleted top1.id)).pushEvent
                (.OrderRemovedFromOrderbook top1.id)).pushEvent
              (.OrderCompleted order.id),
             order1)
        | _, _ => none

/-- TradingEngine::try_insert from core.rs; the loop fuel is the index
length plus one (pushing the OrderReceived event does not change the
index), which computes the exact while-let loop. -/
def TradingEngine.try_insert (e : TradingEngine) (order : Order) : TryInsertOutcome :=
  if (e.get order.id).isSome then
    TryInsertOutcome.err e
  else
    match matchLoop (e.orders.length + 1) (e.pushEvent (.OrderReceived order.id)) order with
    | none => TryInsertOutcome.panicked
    | some (e1, order1) =>
      if order1.status ≠ OrderStatus.Completed ∧ order1.current_kind = OrderKind.Limit then
        TryInsertOutcome.ok ((e1.pushEvent (.OrderAddedToOrderbook order1.id)).insert order1)
      else
        TryInsertOutcome.ok (e1.pushEvent (.OrderReceivedCompletedBeforeEnterInOrderbook order1.id))

/-- Run one submission, keeping the engine state of the Ok and Err
outcomes (the panicked outcome aborts, modelled as no state change). -/
def stepEngine (e : TradingEngine) (o : Order) : TradingEngine :=
  match e.try_insert o with
  | .ok e1 => e1
  | .err e1 => e1
  | .panicked => e

/-- Run a sequence of submissions from the empty engine. -/
def runSubmissions (os : List Order) : TradingEngine :=
  os.foldl stepEngine emptyEngine

/-! ### Specification predicates -/

/-- Per-order index invariant of the spec: remaining never exceeds amount
and the Completed status is equivalent to zero remaining. -/
def goodOrder (o : Order) : Prop :=
  o.remaining ≤ o.amount ∧ (o.status = OrderStatus.Completed ↔ o.remaining = 0)

instance (o : Order) : Decidable (goodOrder o) := by unfold goodOrder; infer_instance

/-- Every order stored in the index satisfies goodOrder. -/
def indexGood (e : TradingEngine) : Prop :=
  ∀ p ∈ e.orders, goodOrder p.2

instance (e : TradingEngine) : Decidable (indexGood e) := by unfold indexGood; infer_instance

/-- A valid submission in the sense of the spec: positive size, untouched
remaining, freshly Open. -/
def validSubmission (o : Order) : Prop :=
  0 < o.amount ∧ o.remaining = o.amount ∧ o.status = OrderStatus.Open

instance (o : Order) : Decidable (validSubmission o) := by unfold validSubmission; infer_instance

/-- One book handle is consistent with the index: the id resolves to an
indexed order whose side and limit price match the location of the
handle, and that order is not Completed, Cancelled or Closed. -/
def handleOk (e : TradingEngine) (side : OrderSide) (price : Nat) (en : Nat × Order) : Bool :=
  match e.get en.1 with
  | some o =>
    decide (o.side = side) && decide (o.limit_price = price) &&
      !(decide (o.status = OrderStatus.Completed) || decide (o.status = OrderStatus.Cancelled) ||
        decide (o.status = OrderStatus.Closed))
  | none => false

/-- Book and index agree (the invariant of claim C7), as a Boolean. -/
def engineConsistent (e : TradingEngine) : Bool :=
  (e.orderbook.ask_levels.all fun pl => pl.2.all (handleOk e OrderSide.Ask pl.1)) &&
  (e.orderbook.bid_levels.all fun pl => pl.2.all (handleOk e OrderSide.Bid pl.1))

/-- Number of handles stored on one side of the book. -/
def levelsSize (ls : Levels) : Nat :=
  (ls.map (fun p => p.2.length)).sum

/-- Total number of handles stored in the book. -/
def bookSize (b : Orderbook) : Nat :=
  levelsSize b.ask_levels + levelsSize b.bid_levels

/-- Keys of an association list are strictly increasing (the invariant a
BTreeMap maintains by construction). -/
def keysOrdered {α : Type} (l : List (Nat × α)) : Prop :=
  l.Pairwise (fun p q => p.1 < q.1)

instance {α : Type} (l : List (Nat × α)) : Decidable (keysOrdered l) := by
  unfold keysOrdered; infer_instance

/-- Both sides of the book are BTreeMap-shaped. -/
def booksOrdered (b : Orderbook) : Prop :=
  keysOrdered b.ask_levels ∧ keysOrdered b.bid_levels

instance (b : Orderbook) : Decidable (booksOrdered b) := by unfold booksOrdered; infer_instance

/-! ### Association list lemmas -/

theorem alRemoveGet_none_fst {α : Type} {k : Nat} {l : List (Nat × α)} :
    (alRemoveGet k l).2 = none → (alRemoveGet k l).1 = l := by
  induction l with
  | nil => intro _; rfl
  | cons hd tl ih =>
    by_cases h : k = hd.1 <;> simp [alRemoveGet, h] <;> exact ih

theorem alRemoveGet_some_mem {α : Type} {k : Nat} {l : List (Nat × α)} {v : α} :
    (alRemoveGet k l).2 = some v → (k, v) ∈ l := by
  induction l with
  | nil => intro h; simp [alRemoveGet] at h
  | cons hd tl ih =>
    obtain ⟨k1, v1⟩ := hd
    by_cases h : k = k1 <;> simp [alRemoveGet, h]
    · intro hv; left; exact hv.symm
    · intro hv; exact ih hv

theorem alRemoveGet_fst_subset {α : Type} {k : Nat} {l : List (Nat × α)} {p : Nat × α} :
    p ∈ (alRemoveGet k l).1 → p ∈ l := by
  induction l with
  | nil => intro h; simp [alRemoveGet] at h
  | cons hd tl ih =>
    by_cases h : k = hd.1 <;> simp [alRemoveGet, h]
    · intro hp; right; exact hp
    · rintro (hp | hp)
      · left; exact hp
      · right; exact ih hp

theorem alRemoveGet_some_length {α : Type} {k : Nat} {l : List (Nat × α)} {v : α} :
    (alRemoveGet k l).2 = some v → (alRemoveGet k l).1.length + 1 = l.length := by
  induction l with
  | nil => intro h; simp [alRemoveGet] at h
  | cons hd tl ih =>
    by_cases h : k = hd.1 <;> simp [alRemoveGet, h]
    intro hv; exact ih hv

theorem idxInsert_mem {α : Type} {k : Nat} {v : α} {l : List (Nat × α)} {p : Nat × α} :
    p ∈ idxInsert k v l → p = (k, v) ∨ p ∈ l := by
  induction l with
  | nil => intro h; simp [idxInsert] at h; left; exact h
  | cons hd tl ih =>
    by_cases h : k = hd.1 <;> simp [idxInsert, h]
    · rintro (hp | hp)
      · left; exact hp
      · right; right; exact hp
    · rintro (hp | hp)
      · right; left; exact hp
      · rcases ih hp with h1 | h1
        · left; exact h1
        · right; right; exact h1

theorem alGet_eq_alRemoveGet_snd {α : Type} (k : Nat) (l : List (Nat × α)) :
    alGet k l = (alRemoveGet k l).2 := by
  induction l with
  | nil => rfl
  | cons hd tl ih =>
    by_cases h : k = hd.1 <;> simp [alGet, alRemoveGet, h]
    exact ih

theorem alGet_some_mem {α : Type} {k : Nat} {l : List (Nat × α)} {v : α} :
    alGet k l = some v → (k, v) ∈ l := by
  rw [alGet_eq_alRemoveGet_snd]; exact alRemoveGet_some_mem

/-! ### Trade lemmas -/

theorem trade_not_matches {a b : Order} (h : Order.matches_with a b = false) :
    Order.trade a b = (a, b, none) := by
  unfold Order.trade
  rw [h]
  simp

theorem trade_matches_eq {a b : Order} (h : Order.matches_with a b = true) :
    Order.trade a b =
      (a.fill (min a.remaining b.remaining), b.fill (min a.remaining b.remaining),
        some { maker_id := a.id, taker_id := b.id,
               price := match a.side with
                 | OrderSide.Ask => max a.limit_price b.limit_price
                 | OrderSide.Bid => min a.limit_price b.limit_price,
               amount := min a.remaining b.remaining, created_at := 0 }) := by
  unfold Order.trade
  rw [h]
  simp

theorem trade_none_iff (a b : Order) :
    (Order.trade a b).2.2 = none ↔ Order.matches_with a b = false := by
  constructor
  · intro h
    by_contra hm
    rw [trade_matches_eq (by revert hm; cases Order.matches_with a b <;> simp)] at h
    simp at h
  · intro h
    rw [trade_not_matches h]

theorem trade_some_spec {a b a1 b1 : Order} {t : Trade}
    (h : Order.trade a b = (a1, b1, some t)) :
    Order.matches_with a b = true ∧
      t.amount = min a.remaining b.remaining ∧
      a1 = a.fill (min a.remaining b.remaining) ∧
      b1 = b.fill (min a.remaining b.remaining) ∧
      t.maker_id = a.id ∧ t.taker_id = b.id ∧
      t.price = (match a.side with
        | OrderSide.Ask => max a.limit_price b.limit_price
        | OrderSide.Bid => min a.limit_price b.limit_price) := by
  have hm : Order.matches_with a b = true := by
    by_contra hm
    have hm2 : Order.matches_with a b = false := by revert hm; cases Order.matches_with a b <;> simp
    rw [trade_not_matches hm2] at h
    simp at h
  rw [trade_matches_eq hm] at h
  injection h with h1 h23
  injection h23 with h2 h3
  injection h3 with h3
  subst h1
  subst h2
  subst h3
  exact ⟨hm, rfl, rfl, rfl, rfl, rfl, rfl⟩

theorem fill_good {o : Order} (amt : Nat) (h : o.remaining ≤ o.amount) :
    goodOrder (o.fill amt) := by
  unfold goodOrder Order.fill
  constructor
  · simp; omega
  · by_cases h0 : o.remaining - amt = 0 <;> simp [h0]

@[simp] theorem fill_id (o : Order) (amt : Nat) : (o.fill amt).id = o.id := rfl

@[simp] theorem fill_amount (o : Order) (amt : Nat) : (o.fill amt).amount = o.amount := rfl

@[simp] theorem fill_remaining (o : Order) (amt : Nat) :
    (o.fill amt).remaining = o.remaining - amt := rfl

@[simp] theorem fill_limit_price (o : Order) (amt : Nat) :
    (o.fill amt).limit_price = o.limit_price := rfl

@[simp] theorem fill_side (o : Order) (amt : Nat) : (o.fill amt).side = o.side := rfl

@[simp] theorem fill_current_kind (o : Order) (amt : Nat) :
    (o.fill amt).current_kind = o.current_kind := rfl

theorem fill_status (o : Order) (amt : Nat) :
    (o.fill amt).status =
      if o.remaining - amt = 0 then OrderStatus.Completed else OrderStatus.Partial := rfl

theorem trade_status_pair {a b a1 b1 : Order} {t : Trade}
    (h : Order.trade a b = (a1, b1, some t)) :
    (a1.status = OrderStatus.Partial ∧ b1.status = OrderStatus.Completed) ∨
      (a1.status = OrderStatus.Completed ∧ b1.status = OrderStatus.Partial) ∨
      (a1.status = OrderStatus.Completed ∧ b1.status = OrderStatus.Completed) := by
  obtain ⟨-, -, ha, hb, -⟩ := trade_some_spec h
  subst ha
  subst hb
  rw [fill_status, fill_status]
  by_cases h1 : a.remaining - min a.remaining b.remaining = 0 <;>
    by_cases h2 : b.remaining - min a.remaining b.remaining = 0 <;>
    simp [h1, h2]
  omega

theorem trade_good_left {a b a1 b1 : Order} {t : Trade}
    (h : Order.trade a b = (a1, b1, some t)) (ha : a.remaining ≤ a.amount) : goodOrder a1 := by
  obtain ⟨-, -, h1, -, -⟩ := trade_some_spec h
  subst h1
  exact fill_good _ ha

theorem trade_good_right {a b a1 b1 : Order} {t : Trade}
    (h : Order.trade a b = (a1, b1, some t)) (hb : b.remaining ≤ b.amount) : goodOrder b1 := by
  obtain ⟨-, -, -, h1, -⟩ := trade_some_spec h
  subst h1
  exact fill_good _ hb

/-! ### Engine lemmas -/

theorem remove_eq (e : TradingEngine) (oid : Nat) :
    e.remove oid =
      ({ e with orders := (alRemoveGet oid e.orders).1 }, (alRemoveGet oid e.orders).2) := rfl

@[simp] theorem pushEvent_orders (e : TradingEngine) (ev : TradingEngineResponse) :
    (e.pushEvent ev).orders = e.orders := rfl

@[simp] theorem pushEvent_orderbook (e : TradingEngine) (ev : TradingEngineResponse) :
    (e.pushEvent ev).orderbook = e.orderbook := rfl

@[simp] theorem insert_orders (e : TradingEngine) (o : Order) :
    (e.insert o).orders = idxInsert o.id o e.orders := rfl

theorem insert_indexGood {e : TradingEngine} {o : Order} (hI : indexGood e) (ho : goodOrder o) :
    indexGood (e.insert o) := by
  intro p hp
  rw [insert_orders] at hp
  rcases idxInsert_mem hp with h1 | h1
  · rw [h1]; exact ho
  · exact hI p h1

theorem pushEvent_indexGood {e : TradingEngine} {ev : TradingEngineResponse}
    (hI : indexGood e) : indexGood (e.pushEvent ev) := by
  intro p hp
  rw [pushEvent_orders] at hp
  exact hI p hp

theorem pfo_none {e e1 : TradingEngine} {ord : Order}
    (h : e.pop_from_orderbook ord = (e1, none)) : e1.orders = e.orders := by
  unfold TradingEngine.pop_from_orderbook at h
  split at h
  · injection h with h1 h2
    subst h1
    rfl
  · rw [remove_eq] at h
    injection h with h1 h2
    subst h1
    exact alRemoveGet_none_fst h2

theorem pfo_some {e e1 : TradingEngine} {ord top : Order}
    (h : e.pop_from_orderbook ord = (e1, some top)) :
    (∃ k, (k, top) ∈ e.orders) ∧ e1.orders.length + 1 = e.orders.length ∧
      ∀ q ∈ e1.orders, q ∈ e.orders := by
  unfold TradingEngine.pop_from_orderbook at h
  split at h
  · injection h with h1 h2
    exact absurd h2 (by simp)
  · rename_i bk o heq
    rw [remove_eq] at h
    injection h with h1 h2
    subst h1
    refine ⟨⟨o.id, alRemoveGet_some_mem h2⟩, alRemoveGet_some_length h2, ?_⟩
    intro q hq
    exact alRemoveGet_fst_subset hq

/-! ### Matching loop lemmas -/


theorem matchLoop_inv (fuel : Nat) :
    ∀ (e : TradingEngine) (ord : Order), indexGood e → goodOrder ord →
      ∀ e1 ord1, matchLoop fuel e ord = some (e1, ord1) → indexGood e1 ∧ goodOrder ord1 := by
  induction fuel with
  | zero =>
    intro e ord hI hG e1 ord1 h
    simp only [matchLoop] at h
    injection h with h1
    injection h1 with h1 h2
    subst h1
    subst h2
    exact ⟨hI, hG⟩
  | succ n ih =>
    intro e ord hI hG e1 ord1 h
    simp only [matchLoop] at h
    split at h
    · rename_i e2 heq
      injection h with h1
      injection h1 with h1 h2
      subst h1
      subst h2
      refine ⟨?_, hG⟩
      intro p hp
      rw [pfo_none heq] at hp
      exact hI p hp
    · rename_i e2 top heq
      obtain ⟨⟨k, hkmem⟩, hlen, hsub⟩ := pfo_some heq
      have hI2 : indexGood e2 := fun p hp => hI p (hsub p hp)
      have hGtop : goodOrder top := hI (k, top) hkmem
      split at h
      · exact ih e2 ord hI2 hG e1 ord1 h
      · rename_i ord2 top1 t heq2
        split at h <;>
        first
          | exact Option.noConfusion h
          | exact ih _ _
              (pushEvent_indexGood (pushEvent_indexGood (pushEvent_indexGood hI2)))
              (trade_good_left heq2 hG.1) e1 ord1 h
          | (injection h with h1
             injection h1 with h1 h2
             subst h1
             subst h2
             first
               | exact ⟨pushEvent_indexGood (pushEvent_indexGood (pushEvent_indexGood hI2)),
                   trade_good_left heq2 hG.1⟩
               | exact ⟨pushEvent_indexGood (insert_indexGood (pushEvent_indexGood hI2)
                     (trade_good_right heq2 hGtop.1)),
                   trade_good_left heq2 hG.1⟩)


theorem matchLoop_ne_none (fuel : Nat) :
    ∀ (e : TradingEngine) (ord : Order), matchLoop fuel e ord ≠ none := by
  induction fuel with
  | zero => intro e ord h; simp [matchLoop] at h
  | succ n ih =>
    intro e ord h
    simp only [matchLoop] at h
    split at h
    · exact Option.noConfusion h
    · rename_i e2 top heq
      split at h
      · exact ih _ _ h
      · rename_i ord2 top1 t heq2
        split at h <;>
        first
          | exact ih _ _ h
          | exact Option.noConfusion h
          | (rcases trade_status_pair heq2 with ⟨h1, h2⟩ | ⟨h1, h2⟩ | ⟨h1, h2⟩ <;> simp_all)

theorem matchLoop_succ (f : Nat) :
    ∀ (e : TradingEngine) (ord : Order), e.orders.length < f →
      matchLoop (f + 1) e ord = matchLoop f e ord := by
  induction f with
  | zero => intro e ord h; exact absurd h (Nat.not_lt_zero _)
  | succ g ih =>
    intro e ord h
    rw [matchLoop.eq_2, matchLoop.eq_2]
    rcases hpop : e.pop_from_orderbook ord with ⟨e2, r⟩
    rcases r with _ | top
    · simp only [hpop]
    · obtain ⟨-, hlen, -⟩ := pfo_some hpop
      simp only [hpop]
      rcases htr : Order.trade ord top with ⟨ord2, top1, tr⟩
      rcases tr with _ | t <;> simp only [htr]
      · exact ih e2 ord (by omega)
      · cases h1 : ord2.status <;> cases h2 : top1.status <;> simp only [h1, h2] <;>
        first
          | rfl
          | exact ih _ _ (by simp only [pushEvent_orders]; omega)

theorem matchLoop_stable (e : TradingEngine) (ord : Order) :
    ∀ f, e.orders.length < f → matchLoop f e ord = matchLoop (e.orders.length + 1) e ord := by
  intro f
  induction f with
  | zero => intro h; exact absurd h (Nat.not_lt_zero _)
  | succ g ih =>
    intro h
    rcases Nat.lt_or_ge e.orders.length g with h1 | h1
    · rw [matchLoop_succ g e ord h1, ih h1]
    · have hg : g = e.orders.length := by omega
      subst hg
      rfl

/-! ### try_insert lemmas -/

theorem validSubmission_goodOrder {o : Order} (hv : validSubmission o) : goodOrder o := by
  obtain ⟨h1, h2, h3⟩ := hv
  refine ⟨h2.le, ?_⟩
  rw [h2, h3]
  constructor
  · intro h; exact absurd h (by simp)
  · intro h; omega

theorem try_insert_ne_panicked (e : TradingEngine) (o : Order) :
    e.try_insert o ≠ TryInsertOutcome.panicked := by
  intro h
  unfold TradingEngine.try_insert at h
  split at h
  · exact TryInsertOutcome.noConfusion h
  · rcases hm : matchLoop (e.orders.length + 1)
        (e.pushEvent (.OrderReceived o.id)) o with _ | ⟨e2, o2⟩
    · exact matchLoop_ne_none _ _ _ hm
    · simp only [hm] at h
      split at h <;> exact TryInsertOutcome.noConfusion h

theorem try_insert_ok_indexGood {e e1 : TradingEngine} {o : Order}
    (hI : indexGood e) (hv : validSubmission o)
    (h : e.try_insert o = TryInsertOutcome.ok e1) : indexGood e1 := by
  unfold TradingEngine.try_insert at h
  split at h
  · exact TryInsertOutcome.noConfusion h
  · rcases hm : matchLoop (e.orders.length + 1)
        (e.pushEvent (.OrderReceived o.id)) o with _ | ⟨e2, o2⟩
    · exact absurd hm (matchLoop_ne_none _ _ _)
    · simp only [hm] at h
      obtain ⟨hI2, hG2⟩ := matchLoop_inv _ _ _ (pushEvent_indexGood hI)
        (validSubmission_goodOrder hv) _ _ hm
      split at h <;> injection h with h1 <;> subst h1
      · exact insert_indexGood (pushEvent_indexGood hI2) hG2
      · exact pushEvent_indexGood hI2

theorem try_insert_err_state {e e1 : TradingEngine} {o : Order}
    (h : e.try_insert o = TryInsertOutcome.err e1) : e1 = e := by
  unfold TradingEngine.try_insert at h
  split at h
  · injection h with h1; exact h1.symm
  · rcases hm : matchLoop (e.orders.length + 1)
        (e.pushEvent (.OrderReceived o.id)) o with _ | ⟨e2, o2⟩
    · exact absurd hm (matchLoop_ne_none _ _ _)
    · simp only [hm] at h
      split at h <;> exact TryInsertOutcome.noConfusion h

theorem stepEngine_indexGood {e : TradingEngine} {o : Order}
    (hI : indexGood e) (hv : validSubmission o) : indexGood (stepEngine e o) := by
  unfold stepEngine
  rcases ht : e.try_insert o with e1 | e1 | _
  · exact try_insert_ok_indexGood hI hv ht
  · rw [try_insert_err_state ht]; exact hI
  · exact hI

theorem foldl_indexGood (os : List Order) :
    ∀ e : TradingEngine, indexGood e → (∀ o ∈ os, validSubmission o) →
      indexGood (os.foldl stepEngine e) := by
  induction os with
  | nil => intro e h _; exact h
  | cons hd tl ih =>
    intro e h hv
    exact ih _ (stepEngine_indexGood h (hv hd (by simp))) (fun o ho => hv o (by simp [ho]))

/-! ### Book size lemmas -/


@[simp] theorem levelsSize_nil : levelsSize [] = 0 := rfl

@[simp] theorem levelsSize_cons (p : Nat × Level) (tl : Levels) :
    levelsSize (p :: tl) = p.2.length + levelsSize tl := by
  simp [levelsSize]

theorem alRemoveGet_some_sum {k : Nat} {ls : Levels} {lvl : Level}
    (h : (alRemoveGet k ls).2 = some lvl) :
    levelsSize (alRemoveGet k ls).1 + lvl.length = levelsSize ls := by
  induction ls with
  | nil => simp [alRemoveGet] at h
  | cons hd tl ih =>
    obtain ⟨k1, v1⟩ := hd
    by_cases hk : k = k1 <;> simp [alRemoveGet, hk] at h ⊢
    · rw [h]; omega
    · have := ih h; omega

theorem alInsert_sum_replace {k : Nat} {ls : Levels} {lvl lvl2 : Level}
    (hord : keysOrdered ls) (h : alGet k ls = some lvl) :
    levelsSize (alInsert k lvl2 ls) + lvl.length = levelsSize ls + lvl2.length := by
  induction ls with
  | nil => simp [alGet] at h
  | cons hd tl ih =>
    obtain ⟨k1, v1⟩ := hd
    rw [keysOrdered, List.pairwise_cons] at hord
    rcases Nat.lt_trichotomy k k1 with hlt | heq | hgt
    · exfalso
      rw [alGet, if_neg (by omega)] at h
      have := hord.1 _ (alGet_some_mem h)
      simp at this
      omega
    · subst heq
      rw [alGet, if_pos rfl] at h
      injection h with h
      rw [alInsert, if_neg (by omega), if_pos rfl]
      simp [h]
      omega
    · rw [alGet, if_neg (by omega)] at h
      rw [alInsert, if_neg (by omega), if_neg (by omega)]
      have := ih hord.2 h
      simp
      omega

theorem levelsRemove_eq_none {o : Order} {ls : Levels}
    (hg : alGet o.limit_price ls = none) : levelsRemove o ls = (ls, none) := by
  unfold levelsRemove
  rw [hg]

theorem levelsRemove_eq_some {o : Order} {ls : Levels} {lvl : Level}
    (hg : alGet o.limit_price ls = some lvl) :
    levelsRemove o ls =
      (if (alRemoveGet o.id lvl).1.isEmpty then (alRemoveGet o.limit_price ls).1
       else alInsert o.limit_price (alRemoveGet o.id lvl).1 ls,
       (alRemoveGet o.id lvl).2) := by
  unfold levelsRemove
  rw [hg]

theorem levelsRemove_some_size {o : Order} {ls ls2 : Levels} {v : Order}
    (hord : keysOrdered ls) (h : levelsRemove o ls = (ls2, some v)) :
    levelsSize ls2 + 1 = levelsSize ls := by
  rcases hg : alGet o.limit_price ls with _ | lvl
  · rw [levelsRemove_eq_none hg] at h
    injection h with h1 h2
    exact Option.noConfusion h2
  · rw [levelsRemove_eq_some hg] at h
    injection h with h1 h2
    have hlen := alRemoveGet_some_length h2
    subst h1
    by_cases he : (alRemoveGet o.id lvl).1.isEmpty
    · rw [if_pos he]
      have h3 : (alRemoveGet o.limit_price ls).2 = some lvl := by
        rw [← alGet_eq_alRemoveGet_snd]; exact hg
      have h4 := alRemoveGet_some_sum h3
      have h5 : (alRemoveGet o.id lvl).1.length = 0 := by
        rcases hc : (alRemoveGet o.id lvl).1 with _ | ⟨a, l⟩
        · rfl
        · rw [hc] at he; exact absurd he (by simp [List.isEmpty])
      omega
    · rw [if_neg he]
      have h3 := @alInsert_sum_replace o.limit_price ls lvl (alRemoveGet o.id lvl).1 hord hg
      omega

theorem book_remove_ask {b : Orderbook} {o : Order} (hs : o.side = OrderSide.Ask) :
    b.remove o =
      ({ b with
          ask_length := subW b.ask_length o.remaining
          ask_levels := (levelsRemove o b.ask_levels).1 },
       (levelsRemove o b.ask_levels).2) := by
  unfold Orderbook.remove
  rw [hs]

theorem book_remove_bid {b : Orderbook} {o : Order} (hs : o.side = OrderSide.Bid) :
    b.remove o =
      ({ b with
          bid_length := subW b.bid_length o.remaining
          bid_levels := (levelsRemove o b.bid_levels).1 },
       (levelsRemove o b.bid_levels).2) := by
  unfold Orderbook.remove
  rw [hs]

theorem book_remove_some_size {b b2 : Orderbook} {o v : Order}
    (hord : booksOrdered b) (h : b.remove o = (b2, some v)) :
    bookSize b2 + 1 = bookSize b := by
  cases hs : o.side
  · rw [book_remove_ask hs] at h
    injection h with h1 h2
    subst h1
    rcases hr : levelsRemove o b.ask_levels with ⟨x, y⟩
    rw [hr] at h2
    dsimp only at h2
    subst h2
    have hsz := levelsRemove_some_size hord.1 hr
    unfold bookSize
    dsimp only
    omega
  · rw [book_remove_bid hs] at h
    injection h with h1 h2
    subst h1
    rcases hr : levelsRemove o b.bid_levels with ⟨x, y⟩
    rw [hr] at h2
    dsimp only at h2
    subst h2
    have hsz := levelsRemove_some_size hord.2 hr
    unfold bookSize
    dsimp only
    omega

theorem book_pop_some_size {b b2 : Orderbook} {inc o : Order}
    (hord : booksOrdered b) (h : b.pop inc = (b2, some o)) :
    bookSize b2 + 1 = bookSize b := by
  unfold Orderbook.pop at h
  cases hs : inc.side <;> rw [hs] at h <;> dsimp only at h
  · rcases hg : b.bid_levels.getLast? with _ | ⟨p, lvl⟩ <;> simp only [hg] at h
    · injection h with h1 h2; exact Option.noConfusion h2
    · rcases hh : lvl.head? with _ | ⟨i, o3⟩ <;> simp only [hh] at h
      · injection h with h1 h2; exact Option.noConfusion h2
      · exact book_remove_some_size hord h
  · rcases hg : b.ask_levels.head? with _ | ⟨p, lvl⟩ <;> simp only [hg] at h
    · injection h with h1 h2; exact Option.noConfusion h2
    · rcases hh : lvl.head? with _ | ⟨i, o3⟩ <;> simp only [hh] at h
      · injection h with h1 h2; exact Option.noConfusion h2
      · exact book_remove_some_size hord h

theorem pfo_some_book {e e2 : TradingEngine} {ord top : Order}
    (hord : booksOrdered e.orderbook) (h : e.pop_from_orderbook ord = (e2, some top)) :
    bookSize e2.orderbook + 1 = bookSize e.orderbook := by
  unfold TradingEngine.pop_from_orderbook at h
  split at h
  · injection h with h1 h2; exact Option.noConfusion h2
  · rename_i bk o heq
    rw [remove_eq] at h
    injection h with h1 h2
    subst h1
    exact book_pop_some_size hord heq


/-! ### Claim theorems -/


/-- Order::new from order/mod.rs. -/
def Order.new (id : Nat) (kind : OrderKind) (side : OrderSide) (amount limit_price : Nat) :
    Order :=
  { id := id, initial_kind := kind, current_kind := kind, side := side, amount := amount,
    remaining := amount, limit_price := limit_price, status := OrderStatus.Open,
    created_at := 0 }

/-- C5: trade(self, other) returns None exactly when matches_with(other) is
false; when it returns Some(t), t.amount is the minimum of the two previous
remaining quantities, both remaining fields drop by t.amount, and each
status becomes Completed when its remaining reached 0 and Partial
otherwise. -/
theorem trade_contract (a b : Order) :
    ((Order.trade a b).2.2 = none ↔ Order.matches_with a b = false) ∧
      ∀ t : Trade, (Order.trade a b).2.2 = some t →
        t.amount = min a.remaining b.remaining ∧
        (Order.trade a b).1.remaining + t.amount = a.remaining ∧
        (Order.trade a b).2.1.remaining + t.amount = b.remaining ∧
        (Order.trade a b).1.status =
          (if (Order.trade a b).1.remaining = 0
           then OrderStatus.Completed else OrderStatus.Partial) ∧
        (Order.trade a b).2.1.status =
          (if (Order.trade a b).2.1.remaining = 0
           then OrderStatus.Completed else OrderStatus.Partial) := by
  constructor
  · exact trade_none_iff a b
  · intro t h
    have heq : Order.trade a b = ((Order.trade a b).1, (Order.trade a b).2.1, some t) := by
      rw [← h]
    obtain ⟨hm, hamt, ha, hb, -, -, -⟩ := trade_some_spec heq
    refine ⟨hamt, ?_, ?_, ?_, ?_⟩
    · rw [ha, fill_remaining]; omega
    · rw [hb, fill_remaining]; omega
    · rw [ha]; rfl
    · rw [hb]; rfl

/-- C5 witness: a concrete crossing pair. -/
theorem trade_contract_witness :
    (100 : Nat) = min 100 100 ∧
      (Order.trade (Order.new 1 OrderKind.Limit OrderSide.Ask 100 500)
          (Order.new 2 OrderKind.Limit OrderSide.Bid 100 500)).1.remaining + 100 = 100 ∧
      (Order.trade (Order.new 1 OrderKind.Limit OrderSide.Ask 100 500)
          (Order.new 2 OrderKind.Limit OrderSide.Bid 100 500)).2.1.remaining + 100 = 100 ∧
      (Order.trade (Order.new 1 OrderKind.Limit OrderSide.Ask 100 500)
          (Order.new 2 OrderKind.Limit OrderSide.Bid 100 500)).1.status =
        (if (Order.trade (Order.new 1 OrderKind.Limit OrderSide.Ask 100 500)
              (Order.new 2 OrderKind.Limit OrderSide.Bid 100 500)).1.remaining = 0
         then OrderStatus.Completed else OrderStatus.Partial) ∧
      (Order.trade (Order.new 1 OrderKind.Limit OrderSide.Ask 100 500)
          (Order.new 2 OrderKind.Limit OrderSide.Bid 100 500)).2.1.status =
        (if (Order.trade (Order.new 1 OrderKind.Limit OrderSide.Ask 100 500)
              (Order.new 2 OrderKind.Limit OrderSide.Bid 100 500)).2.1.remaining = 0
         then OrderStatus.Completed else OrderStatus.Partial) := by
  have h := (trade_contract (Order.new 1 OrderKind.Limit OrderSide.Ask 100 500)
    (Order.new 2 OrderKind.Limit OrderSide.Bid 100 500)).2
    { maker_id := 1, taker_id := 2, price := 500, amount := 100, created_at := 0 }
    (by decide)
  exact h

/-- C6: under the engine call convention incoming.trade(resting), an
emitted trade executes at the limit price of the resting order, which is
the maximum of the two limit prices for an incoming Ask and the minimum
for an incoming Bid. -/
theorem trade_price_maker (incoming resting : Order) (t : Trade)
    (h : (Order.trade incoming resting).2.2 = some t) :
    t.price = resting.limit_price ∧
      t.price = (if incoming.side = OrderSide.Ask
                 then max incoming.limit_price resting.limit_price
                 else min incoming.limit_price resting.limit_price) := by
  have heq : Order.trade incoming resting =
      ((Order.trade incoming resting).1, (Order.trade incoming resting).2.1, some t) := by
    rw [← h]
  obtain ⟨hm, -, -, -, -, -, hp⟩ := trade_some_spec heq
  cases hsa : incoming.side <;> cases hsb : resting.side <;>
    rw [hsa] at hp <;>
    simp [Order.matches_with, hsa, hsb] at hm <;>
    simp only [] at hp
  · exact ⟨by omega, by simp [hp]⟩
  · exact ⟨by omega, by simp [hp]⟩

/-- C6 witness: spec scenario S2. -/
theorem trade_price_maker_witness :
    (400 : Nat) = (Order.new 1 OrderKind.Limit OrderSide.Ask 100 400).limit_price ∧
      (400 : Nat) = (if (Order.new 2 OrderKind.Limit OrderSide.Bid 100 500).side = OrderSide.Ask
                 then max 500 400 else min 500 400) := by
  have h := trade_price_maker (Order.new 2 OrderKind.Limit OrderSide.Bid 100 500)
    (Order.new 1 OrderKind.Limit OrderSide.Ask 100 400)
    { maker_id := 2, taker_id := 1, price := 400, amount := 100, created_at := 0 }
    (by decide)
  exact h




/-- C2 (counterexample): the trade emitted for incoming order 2 against
resting order 1 labels maker_id with the incoming id 2 and taker_id with
the resting id 1, not the other way around as the claim states. -/
theorem trade_labels_cex :
    (Order.new 2 OrderKind.Limit OrderSide.Bid 100 500).id = 2 ∧
      (Order.new 1 OrderKind.Limit OrderSide.Ask 100 400).id = 1 ∧
      ((Order.trade (Order.new 2 OrderKind.Limit OrderSide.Bid 100 500)
          (Order.new 1 OrderKind.Limit OrderSide.Ask 100 400)).2.2).map Trade.maker_id =
        some 2 ∧
      ((Order.trade (Order.new 2 OrderKind.Limit OrderSide.Bid 100 500)
          (Order.new 1 OrderKind.Limit OrderSide.Ask 100 400)).2.2).map Trade.taker_id =
        some 1 := by
  decide

/-- C2 (amended): under the engine call convention incoming.trade(resting),
the emitted Trade has maker_id equal to the incoming (taker) id and
taker_id equal to the resting (maker) id: the two labels are swapped
relative to the glossary. -/
theorem trade_labels_swapped (incoming resting a1 b1 : Order) (t : Trade)
    (h : Order.trade incoming resting = (a1, b1, some t)) :
    t.maker_id = incoming.id ∧ t.taker_id = resting.id :=
  ⟨(trade_some_spec h).2.2.2.2.1, (trade_some_spec h).2.2.2.2.2.1⟩

/-- C2 witness: the concrete pair of the counterexample. -/
theorem trade_labels_swapped_witness :
    ({ maker_id := 2, taker_id := 1, price := 400, amount := 100,
       created_at := 0 } : Trade).maker_id =
        (Order.new 2 OrderKind.Limit OrderSide.Bid 100 500).id ∧
      ({ maker_id := 2, taker_id := 1, price := 400, amount := 100,
         created_at := 0 } : Trade).taker_id =
        (Order.new 1 OrderKind.Limit OrderSide.Ask 100 400).id :=
  trade_labels_swapped (Order.new 2 OrderKind.Limit OrderSide.Bid 100 500)
    (Order.new 1 OrderKind.Limit OrderSide.Ask 100 400)
    (Order.trade (Order.new 2 OrderKind.Limit OrderSide.Bid 100 500)
      (Order.new 1 OrderKind.Limit OrderSide.Ask 100 400)).1
    (Order.trade (Order.new 2 OrderKind.Limit OrderSide.Bid 100 500)
      (Order.new 1 OrderKind.Limit OrderSide.Ask 100 400)).2.1
    { maker_id := 2, taker_id := 1, price := 400, amount := 100, created_at := 0 }
    (by decide)

/-- C3 (counterexample): a Market-kind order and a zero-amount order are
both accepted by try_insert, although the claim requires UnsupportedKind
and InvalidOrder errors for them. -/
theorem try_insert_no_validation_cex :
    (Order.new 7 OrderKind.Market OrderSide.Ask 100 500).current_kind ≠ OrderKind.Limit ∧
      (emptyEngine.try_insert (Order.new 7 OrderKind.Market OrderSide.Ask 100 500)).isErr =
        false ∧
      (Order.new 9 OrderKind.Limit OrderSide.Bid 0 500).amount = 0 ∧
      (emptyEngine.try_insert (Order.new 9 OrderKind.Limit OrderSide.Bid 0 500)).isErr =
        false := by
  decide

/-- C3 (amended): try_insert returns an error exactly when the id of the
submitted order is already present in the index; no amount, remaining or
kind validation is performed. -/
theorem try_insert_err_iff_duplicate (e : TradingEngine) (o : Order) :
    (e.try_insert o).isErr = (e.get o.id).isSome := by
  unfold TradingEngine.try_insert
  split
  · rename_i h
    rw [h]
    rfl
  · rename_i h
    have h2 : (e.get o.id).isSome = false := by
      revert h
      cases (e.get o.id).isSome <;> simp
    rw [h2]
    rcases hm : matchLoop (e.orders.length + 1)
        (e.pushEvent (.OrderReceived o.id)) o with _ | ⟨e2, o2⟩
    · exact absurd hm (matchLoop_ne_none _ _ _)
    · simp only [hm]
      split <;> rfl

/-- C9: after a trade returns Some inside the matching loop the status
pair of (incoming, resting) is always (Partial, Completed),
(Completed, Partial) or (Completed, Completed) — pairs containing Open
are impossible — and the unreachable! fallback arm is never taken:
try_insert never panics, for any engine state and any order. -/
theorem trade_status_classification :
    (∀ (a b a1 b1 : Order) (t : Trade), Order.trade a b = (a1, b1, some t) →
        (a1.status = OrderStatus.Partial ∧ b1.status = OrderStatus.Completed) ∨
          (a1.status = OrderStatus.Completed ∧ b1.status = OrderStatus.Partial) ∨
          (a1.status = OrderStatus.Completed ∧ b1.status = OrderStatus.Completed)) ∧
      ∀ (e : TradingEngine) (o : Order), e.try_insert o ≠ TryInsertOutcome.panicked :=
  ⟨fun _ _ _ _ _ h => trade_status_pair h, try_insert_ne_panicked⟩

/-- C9 witness: a concrete crossing trade and a concrete submission. -/
theorem trade_status_classification_witness :
    (((Order.trade (Order.new 1 OrderKind.Limit OrderSide.Ask 100 500)
            (Order.new 2 OrderKind.Limit OrderSide.Bid 100 500)).1.status = OrderStatus.Partial ∧
        (Order.trade (Order.new 1 OrderKind.Limit OrderSide.Ask 100 500)
            (Order.new 2 OrderKind.Limit OrderSide.Bid 100 500)).2.1.status =
          OrderStatus.Completed) ∨
      ((Order.trade (Order.new 1 OrderKind.Limit OrderSide.Ask 100 500)
            (Order.new 2 OrderKind.Limit OrderSide.Bid 100 500)).1.status =
          OrderStatus.Completed ∧
        (Order.trade (Order.new 1 OrderKind.Limit OrderSide.Ask 100 500)
            (Order.new 2 OrderKind.Limit OrderSide.Bid 100 500)).2.1.status =
          OrderStatus.Partial) ∨
      ((Order.trade (Order.new 1 OrderKind.Limit OrderSide.Ask 100 500)
            (Order.new 2 OrderKind.Limit OrderSide.Bid 100 500)).1.status =
          OrderStatus.Completed ∧
        (Order.trade (Order.new 1 OrderKind.Limit OrderSide.Ask 100 500)
            (Order.new 2 OrderKind.Limit OrderSide.Bid 100 500)).2.1.status =
          OrderStatus.Completed)) ∧
      emptyEngine.try_insert (Order.new 1 OrderKind.Limit OrderSide.Ask 100 500) ≠
        TryInsertOutcome.panicked :=
  ⟨trade_status_classification.1 _ _ _ _ _
      (by decide :
        Order.trade (Order.new 1 OrderKind.Limit OrderSide.Ask 100 500)
            (Order.new 2 OrderKind.Limit OrderSide.Bid 100 500) =
          ((Order.trade (Order.new 1 OrderKind.Limit OrderSide.Ask 100 500)
              (Order.new 2 OrderKind.Limit OrderSide.Bid 100 500)).1,
            (Order.trade (Order.new 1 OrderKind.Limit OrderSide.Ask 100 500)
              (Order.new 2 OrderKind.Limit OrderSide.Bid 100 500)).2.1,
            some { maker_id := 1, taker_id := 2, price := 500, amount := 100,
                   created_at := 0 })),
    trade_status_classification.2 emptyEngine (Order.new 1 OrderKind.Limit OrderSide.Ask 100 500)⟩




/-- Resting bid at 400 used in the concrete runs. -/
def bidA : Order := Order.new 1 OrderKind.Limit OrderSide.Bid 100 400

/-- Resting bid at 390 used in the concrete runs. -/
def bidB : Order := Order.new 11 OrderKind.Limit OrderSide.Bid 100 390

/-- Incoming ask at 500, crossing neither bid. -/
def askC : Order := Order.new 2 OrderKind.Limit OrderSide.Ask 100 500

/-- C1 (code bug): submitting the non-crossing ask 2 pops and destroys
both resting bids — they vanish from the index and from the book — while
the claim demands the loop exit with the book unchanged. The while-let
body simply drops a popped order whose trade returns None and keeps
looping. -/
theorem noncrossing_resting_destroyed :
    Order.matches_with askC bidA = false ∧
      Order.matches_with askC bidB = false ∧
      ((runSubmissions [bidA, bidB]).get 1).isSome = true ∧
      ((runSubmissions [bidA, bidB]).get 11).isSome = true ∧
      (runSubmissions [bidA, bidB, askC]).get 1 = none ∧
      (runSubmissions [bidA, bidB, askC]).get 11 = none ∧
      (runSubmissions [bidA, bidB, askC]).orderbook.bid_levels = [] ∧
      ((runSubmissions [bidA, bidB, askC]).get 2).isSome = true := by
  decide

/-- C7 (code bug): TradingEngine::remove removes the order from the index
only; after remove(1), the book still holds the handle of order 1 at
(Bid, 400) while the index no longer resolves it, so the book and the
index disagree. -/
theorem remove_breaks_consistency :
    engineConsistent (runSubmissions [bidA]) = true ∧
      ((runSubmissions [bidA]).remove 1).2 = some bidA ∧
      engineConsistent ((runSubmissions [bidA]).remove 1).1 = false ∧
      ((runSubmissions [bidA]).remove 1).1.orderbook.bid_levels.map
          (fun p => (p.1, p.2.map Prod.fst)) = [(400, [1])] ∧
      ((runSubmissions [bidA]).remove 1).1.get 1 = none := by
  decide

/-- Submissions for the FIFO counterexample: id 5 arrives before id 3 at
the same side and price. -/
def askId5 : Order := Order.new 5 OrderKind.Limit OrderSide.Ask 50 500

/-- Second submission, smaller id, later arrival. -/
def askId3 : Order := Order.new 3 OrderKind.Limit OrderSide.Ask 50 500

/-- Crossing bid that should match the earlier arrival (id 5) under the
claim. -/
def bidId7 : Order := Order.new 7 OrderKind.Limit OrderSide.Bid 50 500

/-- C4 (counterexample): with id 5 resting before id 3 at the same level,
the incoming bid 7 trades away id 3 (the smaller OrderId) and leaves the
earlier arrival id 5 untouched, contradicting arrival-order priority. -/
theorem fifo_priority_cex :
    ((runSubmissions [askId5, askId3]).orderbook.ask_levels.map
        (fun p => (p.1, p.2.map Prod.fst)) = [(500, [3, 5])]) ∧
      (runSubmissions [askId5, askId3, bidId7]).get 3 = none ∧
      ((runSubmissions [askId5, askId3, bidId7]).get 5) = some askId5 := by
  decide




/-- C4 (amended): among two orders resting at the same side and limit
price, Orderbook::pop always removes the one with the smaller OrderId —
the head of the BTreeMap level keyed by id — regardless of insertion
order. -/
theorem pop_prefers_smaller_id (o1 o2 inc : Order)
    (hside : o1.side = o2.side) (hpr : o1.limit_price = o2.limit_price)
    (hid : o1.id ≠ o2.id) (hinc : inc.side = o1.side.opposite) :
    (((emptyBook.insert o1).insert o2).pop inc).2 =
      some (if o1.id < o2.id then o1 else o2) := by
  cases hs1 : o1.side <;>
    rw [hs1] at hside hinc <;>
    simp only [OrderSide.opposite] at hinc <;>
    rcases Nat.lt_trichotomy o1.id o2.id with hlt | heq | hgt
  · have hne : ¬ o2.id = o1.id := by omega
    have hnlt : ¬ o2.id < o1.id := by omega
    simp [Orderbook.insert, Orderbook.pop, Orderbook.remove, levelsInsert, levelsRemove,
      emptyBook, alInsert, alGet, alRemoveGet, hs1, ← hside, ← hpr, hinc, hlt, hne, hnlt]
  · exact absurd heq hid
  · have hne : ¬ o2.id = o1.id := by omega
    have hnlt : ¬ o1.id < o2.id := by omega
    simp [Orderbook.insert, Orderbook.pop, Orderbook.remove, levelsInsert, levelsRemove,
      emptyBook, alInsert, alGet, alRemoveGet, hs1, ← hside, ← hpr, hinc, hgt, hne, hnlt]
  · have hne : ¬ o2.id = o1.id := by omega
    have hnlt : ¬ o2.id < o1.id := by omega
    simp [Orderbook.insert, Orderbook.pop, Orderbook.remove, levelsInsert, levelsRemove,
      emptyBook, alInsert, alGet, alRemoveGet, hs1, ← hside, ← hpr, hinc, hlt, hne, hnlt]
  · exact absurd heq hid
  · have hne : ¬ o2.id = o1.id := by omega
    have hnlt : ¬ o1.id < o2.id := by omega
    simp [Orderbook.insert, Orderbook.pop, Orderbook.remove, levelsInsert, levelsRemove,
      emptyBook, alInsert, alGet, alRemoveGet, hs1, ← hside, ← hpr, hinc, hgt, hne, hnlt]




/-- C4 witness: the two asks of the counterexample and the crossing bid. -/
theorem pop_prefers_smaller_id_witness :
    (((emptyBook.insert askId5).insert askId3).pop bidId7).2 =
      some (if askId5.id < askId3.id then askId5 else askId3) :=
  pop_prefers_smaller_id askId5 askId3 bidId7 (by decide) (by decide) (by decide) (by decide)

/-- C8: after any sequence of valid submissions applied to the empty
engine, every order stored in the index satisfies remaining ≤ amount and
has status Completed exactly when its remaining is zero. -/
theorem index_invariant_holds (os : List Order)
    (hv : ∀ o ∈ os, validSubmission o) : indexGood (runSubmissions os) := by
  unfold runSubmissions
  refine foldl_indexGood os emptyEngine ?_ hv
  intro p hp
  exact absurd hp (by simp [emptyEngine])

/-- C8 witness: a concrete sequence with a partial fill. -/
theorem index_invariant_holds_witness :
    indexGood (runSubmissions [askId5, askId3, bidId7]) :=
  index_invariant_holds [askId5, askId3, bidId7] (by decide)

/-- C10: every iteration of the matching loop that pops a resting order
removes exactly one entry from the index and, when the book is
BTreeMap-shaped, exactly one handle from the book; the loop result is
stable for any fuel above the index length, so the while-let loop
terminates. -/
theorem matching_loop_terminates (e : TradingEngine) (ord : Order) :
    (∀ (e2 : TradingEngine) (top : Order), e.pop_from_orderbook ord = (e2, some top) →
        e2.orders.length + 1 = e.orders.length ∧
          (booksOrdered e.orderbook → bookSize e2.orderbook + 1 = bookSize e.orderbook)) ∧
      ∀ f, e.orders.length < f →
        matchLoop f e ord = matchLoop (e.orders.length + 1) e ord := by
  constructor
  · intro e2 top h
    exact ⟨(pfo_some h).2.1, fun hord => pfo_some_book hord h⟩
  · exact matchLoop_stable e ord

/-- C10 witness: one resting ask popped by a crossing bid. -/
theorem matching_loop_terminates_witness :
    (((runSubmissions [askId5]).pop_from_orderbook bidId7).1.orders.length + 1 =
        (runSubmissions [askId5]).orders.length ∧
      bookSize ((runSubmissions [askId5]).pop_from_orderbook bidId7).1.orderbook + 1 =
        bookSize (runSubmissions [askId5]).orderbook) ∧
      matchLoop 5 (runSubmissions [askId5]) bidId7 =
        matchLoop ((runSubmissions [askId5]).orders.length + 1)
          (runSubmissions [askId5]) bidId7 := by
  have h := matching_loop_terminates (runSubmissions [askId5]) bidId7
  refine ⟨?_, h.2 5 (by decide)⟩
  have h2 := h.1 ((runSubmissions [askId5]).pop_from_orderbook bidId7).1 askId5 (by decide)
  exact ⟨h2.1, h2.2 (by decide)⟩


end UnsafeTrading
